import Mathlib

/-!
# Verification of the virtual-TA query pipeline (`app/core.py`)

Shallow embedding of the retrieval-and-synthesis pipeline of the
repository.  Python strings are modelled as `List Char`, Python dicts
holding chunk payloads as a `Chunk` structure with optional fields,
floats (similarity scores) as rationals, and the external collaborators
(Mistral client, Qdrant client) as explicit function parameters.
-/

namespace VirtualTA

/-- Python strings are modelled as lists of characters. -/
abbrev Str := List Char

/-- Coerce a Lean string literal to the model type. -/
def pystr (s : String) : Str := s.data

/-- Python `str.isspace` / the `\s` regex class, restricted to the ASCII
whitespace characters (space, tab, newline, carriage return, vertical
tab, form feed) that can occur in the strings handled by the pipeline. -/
def pyIsSpace (c : Char) : Bool :=
  c == ' ' || c == '\t' || c == '\n' || c == '\r' || c == '\x0b' || c == '\x0c'

/-- Left part of Python `str.strip()`: drop leading whitespace. -/
def lstrip (s : Str) : Str := s.dropWhile pyIsSpace

/-- Right part of Python `str.strip()`: drop trailing whitespace. -/
def rstrip (s : Str) : Str := (s.reverse.dropWhile pyIsSpace).reverse

/-- Python `str.strip()`. -/
def pyStrip (s : Str) : Str := rstrip (lstrip s)

/-- Python `sub in s` (substring containment). -/
def containsSub (sub : Str) : Str → Bool
  | [] => sub.isPrefixOf ([] : Str)
  | c :: s => sub.isPrefixOf (c :: s) || containsSub sub s

/-- Case-insensitive prefix test, modelling `re.IGNORECASE` matching of a
literal pattern. -/
def ciIsPrefixOf : Str → Str → Bool
  | [], _ => true
  | _ :: _, [] => false
  | p :: ps, c :: cs => (p.toLower == c.toLower) && ciIsPrefixOf ps cs

/-- Case-insensitive substring containment. -/
def containsSubCI (sub : Str) : Str → Bool
  | [] => ciIsPrefixOf sub []
  | c :: s => ciIsPrefixOf sub (c :: s) || containsSubCI sub s

/-- Python `s.split(sep, 1)` helper: locate the first occurrence of the
(non-empty) separator, returning the text before it and the text after
it, or `none` when the separator does not occur. -/
def splitFirst (sep : Str) : Str → Option (Str × Str)
  | [] => none
  | c :: s =>
    if sep.isPrefixOf (c :: s) then some ([], (c :: s).drop sep.length)
    else (splitFirst sep s).map (fun p => (c :: p.1, p.2))

/-- Python `s.split(sep, 1)` for a non-empty separator. -/
def pySplit1 (sep s : Str) : List Str :=
  match splitFirst sep s with
  | some (a, b) => [a, b]
  | none => [s]

/-- Python `s.split(c)` on a single-character separator (used for
`"\n"`). -/
def splitChar (sep : Char) : Str → List Str
  | [] => [[]]
  | c :: s =>
    if c == sep then [] :: splitChar sep s
    else
      match splitChar sep s with
      | [] => [[c]]
      | l :: ls => (c :: l) :: ls

/-- Python `sep.join(parts)`. -/
def joinSep (sep : Str) : List Str → Str
  | [] => []
  | [s] => s
  | s :: ss => s ++ sep ++ joinSep sep ss

/-! ## The regular-expression matchers of `parse_llm_response`

`re.search` with an alternation of patterns is modelled faithfully by
backtracking semantics: scan candidate start positions left to right and
at each position try the alternatives in their order in the pattern; the
first success wins.  Lazy captures `(.*?)X` capture up to the first
occurrence of the closing character (`.` does not match a newline);
greedy classes such as `[^\]]+` and `\S+` are deterministic here because
the following literal cannot match a character of the class. -/

/-- Lazy capture `(.*?)c`: the characters before the first occurrence of
the closing character `closer`, failing when a newline or the end of the
string is reached first (`.` does not match `\n`). -/
def lazyCaptureTo (closer : Char) : Str → Option Str
  | [] => none
  | c :: s =>
    if c == closer then some []
    else if c == '\n' then none
    else (lazyCaptureTo closer s).map (c :: ·)

/-- The characters before the first `]`, any characters (including
newlines) allowed, failing when no `]` exists (`[^\]]*\]`). -/
def upToRBracket : Str → Option Str
  | [] => none
  | c :: s =>
    if c == ']' then some []
    else (upToRBracket s).map (c :: ·)

/-- `URL:\s*\[(.*?)\]` (case-insensitive; also covers the identical
`url:` alternative of the pattern). -/
def matchUrlBracket (s : Str) : Option Str :=
  if ciIsPrefixOf (pystr "url:") s then
    match (s.drop 4).dropWhile pyIsSpace with
    | c :: r => if c = '[' then lazyCaptureTo ']' r else none
    | [] => none
  else none

/-- `\[(http[^\]]+)\]` (case-insensitive `http`). -/
def matchBracketHttp (s : Str) : Option Str :=
  match s with
  | c :: r =>
    if c = '[' then
      if ciIsPrefixOf (pystr "http") r then
        match upToRBracket (r.drop 4) with
        | some [] => none
        | some l => some (r.take 4 ++ l)
        | none => none
      else none
    else none
  | [] => none

/-- `URL:\s*(http\S+)` (case-insensitive; also covers the identical
`url:` alternative). -/
def matchUrlBare (s : Str) : Option Str :=
  if ciIsPrefixOf (pystr "url:") s then
    let rest := (s.drop 4).dropWhile pyIsSpace
    if ciIsPrefixOf (pystr "http") rest then
      let tail := (rest.drop 4).takeWhile (fun c => !pyIsSpace c)
      if tail = [] then none else some (rest.take 4 ++ tail)
    else none
  else none

/-- `(http\S+)` (case-insensitive `http`). -/
def matchHttpBare (s : Str) : Option Str :=
  if ciIsPrefixOf (pystr "http") s then
    let tail := (s.drop 4).takeWhile (fun c => !pyIsSpace c)
    if tail = [] then none else some (s.take 4 ++ tail)
  else none

/-- The URL pattern alternatives of line 218 of `core.py`, tried in the
order of the alternation (the `url:` duplicates of the `URL:`
alternatives coincide with them under `re.IGNORECASE`). -/
def urlAltsAt (s : Str) : Option Str :=
  (matchUrlBracket s).orElse fun _ =>
    (matchBracketHttp s).orElse fun _ =>
      (matchUrlBare s).orElse fun _ => matchHttpBare s

/-- `Text:\s*\[(.*?)\]` (case-insensitive). -/
def matchTextBracket (s : Str) : Option Str :=
  if ciIsPrefixOf (pystr "text:") s then
    match (s.drop 5).dropWhile pyIsSpace with
    | c :: r => if c = '[' then lazyCaptureTo ']' r else none
    | [] => none
  else none

/-- `[\"\"](.*?)[\"\"]`, i.e. `"(.*?)"` (the character class contains
only the double quote). -/
def matchQuoted (s : Str) : Option Str :=
  match s with
  | c :: r => if c = '"' then lazyCaptureTo '"' r else none
  | [] => none

/-- `Text:\s*\"(.*?)\"` (case-insensitive). -/
def matchTextQuoted (s : Str) : Option Str :=
  if ciIsPrefixOf (pystr "text:") s then
    match (s.drop 5).dropWhile pyIsSpace with
    | c :: r => if c = '"' then lazyCaptureTo '"' r else none
    | [] => none
  else none

/-- The description pattern alternatives of line 219 of `core.py`. -/
def textAltsAt (s : Str) : Option Str :=
  (matchTextBracket s).orElse fun _ =>
    (matchQuoted s).orElse fun _ => matchTextQuoted s

/-- `re.search`: try the alternation at every start position from left
to right (including the position at the end of the string). -/
def reSearch (alts : Str → Option Str) : Str → Option Str
  | [] => alts []
  | c :: s =>
    match alts (c :: s) with
    | some g => some g
    | none => reSearch alts s

/-- `re.sub(r'^\d+\.\s*', '', line)`: strip a leading enumeration
marker. -/
def stripEnum (s : Str) : Str :=
  let digits := s.takeWhile Char.isDigit
  if digits = [] then s
  else
    match s.drop digits.length with
    | c :: r => if c = '.' then r.dropWhile pyIsSpace else s
    | [] => s

/-- `re.sub(r'^-\s*', '', line)`: strip a leading bullet marker. -/
def stripBullet : Str → Str
  | c :: r => if c = '-' then r.dropWhile pyIsSpace else c :: r
  | [] => []

/-! ## `parse_llm_response` -/

/-- A citation `{"url": ..., "text": ...}` produced by the parser or the
fallback derivation. -/
structure Citation where
  url : Str
  text : Str
deriving DecidableEq

/-- The structured result `{"answer": ..., "links": ...}` of the
pipeline. -/
structure ParsedAnswer where
  answer : Str
  links : List Citation
deriving DecidableEq

/-- The default description used when no `Text:` pattern matches. -/
def sourceReference : Str := pystr "Source reference"

/-- The body of the `for line in source_lines` loop of
`parse_llm_response` (lines 211-229 of `core.py`): strip the line, skip
it when empty, strip enumeration and bullet markers, search for the URL
and description patterns, and append a citation when a URL was found
that starts with `http`. -/
def processLine (links : List Citation) (line : Str) : List Citation :=
  let line := pyStrip line
  if line = [] then links
  else
    let line := stripBullet (stripEnum line)
    match reSearch urlAltsAt line with
    | none => links
    | some g =>
      let url := pyStrip g
      let text :=
        match reSearch textAltsAt line with
        | some tv => if tv = [] then sourceReference else pyStrip tv
        | none => sourceReference
      if url ≠ [] ∧ (pystr "http").isPrefixOf url then links ++ [⟨url, text⟩]
      else links

/-- The alternate headers tried when `Sources:` is absent (line 199 of
`core.py`). -/
def headerAlternates : List Str := [pystr "Source:", pystr "References:", pystr "Reference:"]

/-- Lines 197-202 of `core.py`: `parts = response.split("Sources:", 1)`,
then, when no split happened, the first alternate header contained in
the response is used instead. -/
def splitHeader (response : Str) : List Str :=
  match splitFirst (pystr "Sources:") response with
  | some (a, b) => [a, b]
  | none =>
    match headerAlternates.find? (fun h => containsSub h response) with
    | some h => pySplit1 h response
    | none => [response]

/-- The `try` block of `parse_llm_response` with the one fallible
operation — the indexing `parts[0]` — modelled in `Except`; the `Sources`
processing loop is the fold of `processLine` over the split lines. -/
def parse_llm_responseE (response : Str) : Except Unit ParsedAnswer :=
  match splitHeader response with
  | [] => .error ()
  | answer0 :: rest =>
    let answer := pyStrip answer0
    let links :=
      match rest with
      | [] => []
      | after :: _ =>
        let sourcesText := pyStrip after
        let sourceLines := splitChar '\n' sourcesText
        sourceLines.foldl processLine []
    .ok ⟨answer, links⟩

/-- The safe default returned by the `except` branch of
`parse_llm_response`. -/
def parseErrorDefault : ParsedAnswer :=
  ⟨pystr "Error parsing the response from the language model.", []⟩

/-- `parse_llm_response` (lines 193-240 of `core.py`): the `try` body,
with any internal exception converted to the safe default. -/
def parse_llm_response (response : Str) : ParsedAnswer :=
  match parse_llm_responseE response with
  | .ok r => r
  | .error _ => parseErrorDefault

/-- The mandated output format of the prompt (one enumerated source
line): `answer\n\nSources:\n1. URL: [u], Text: [t]`. -/
def mandatedFormat (a u t : Str) : Str :=
  a ++ pystr "\n\nSources:\n1. URL: [" ++ u ++ pystr "], Text: [" ++ t ++ pystr "]"

/-! ## Chunks, aggregation and the fallback derivation -/

/-- A retrieved chunk: the payload dictionary stored in the vector
index.  Every field the pipeline reads is optional, matching
`dict.get`; identifiers such as `post_id` are represented by their
string rendering (the code only ever interpolates them into f-strings);
the float similarity score is modelled as a rational. -/
structure Chunk where
  source : Option Str := none
  post_id : Option Str := none
  filename : Option Str := none
  url : Option Str := none
  original_url : Option Str := none
  link : Option Str := none
  text : Option Str := none
  content : Option Str := none
  score : Option ℚ := none
deriving DecidableEq

/-- Python truthiness of an optional string (`None` and `""` are
falsy). -/
def truthyOpt : Option Str → Bool
  | some s => !s.isEmpty
  | none => false

/-- Python `a or b` on optional strings: `a` when truthy, else `b`. -/
def pyOr (a b : Option Str) : Option Str := if truthyOpt a then a else b

/-- f-string rendering of an optional string (`None` renders as
`"None"`). -/
def pyShowOpt : Option Str → Str
  | some s => s
  | none => pystr "None"

/-- `chunk.get("score", 0)`: a missing score counts as `0`. -/
def scoreD (c : Chunk) : ℚ := c.score.getD 0

/-- The grouping key of lines 73-80 of `core.py`. -/
def groupKey (c : Chunk) : Str :=
  if c.source = some (pystr "discourse") then pystr "discourse_" ++ pyShowOpt c.post_id
  else if c.source = some (pystr "course_material") then pystr "course_" ++ pyShowOpt c.filename
  else pystr "generic_" ++ pyShowOpt (pyOr c.url c.original_url)

/-- The comparison realised by `list.sort(key=lambda x: x.get("score", 0),
reverse=True)`: `c` may come before `d` iff its defaulted score is not
smaller. -/
def scoreGE (c d : Chunk) : Prop := scoreD d ≤ scoreD c

instance : DecidableRel scoreGE := fun c d => inferInstanceAs (Decidable (scoreD d ≤ scoreD c))

instance : IsTotal Chunk scoreGE := ⟨fun c d => le_total (scoreD d) (scoreD c)⟩

instance : IsTrans Chunk scoreGE := ⟨fun _ _ _ h h' => le_trans h' h⟩

/-- Python `list.sort(key=lambda x: x.get("score", 0), reverse=True)`:
the stable descending sort by defaulted score (insertion sort with the
non-strict comparison is stable, as is Python timsort). -/
def sortByScoreDesc (l : List Chunk) : List Chunk := l.insertionSort scoreGE

/-- Deduplication keeping first occurrences, relative to a set of
already-seen elements. -/
def firstOccurAux {α : Type} [DecidableEq α] (seen : List α) : List α → List α
  | [] => []
  | x :: xs =>
    if x ∈ seen then firstOccurAux seen xs else x :: firstOccurAux (x :: seen) xs

/-- Deduplication keeping first occurrences: the key order of a Python
(insertion-ordered) dict built by repeated `grouped[key].append`, and
the first-seen URL order of the fallback derivation. -/
def firstOccur {α : Type} [DecidableEq α] (l : List α) : List α := firstOccurAux [] l

/-- One group's contribution to the aggregated context: the chunks with
key `k` (appended in input order), sorted descending by defaulted score
and truncated to 3 (`group.sort(...); final_chunks.extend(group[:3])`). -/
def grpContrib (chunks : List Chunk) (k : Str) : List Chunk :=
  (sortByScoreDesc (chunks.filter (fun c => groupKey c == k))).take 3

/-- `group_and_deduplicate_chunks` (lines 70-92 of `core.py`).  The dict
of groups is modelled by its key list in first-insertion order together
with `filter` for each group's members (appended in input order); each
group is sorted descending by defaulted score and truncated to 3, the
groups are flattened in key order, and the result is sorted descending
again and truncated to 10. -/
def group_and_deduplicate_chunks (chunks : List Chunk) : List Chunk :=
  let keys := firstOccur (chunks.map groupKey)
  (sortByScoreDesc (keys.map (grpContrib chunks)).flatten).take 10

/-- The URL-bearing field lookup of line 248 of `core.py`:
`chunk.get("url") or chunk.get("link") or chunk.get("original_url")`. -/
def chunkFallbackUrl (c : Chunk) : Option Str :=
  pyOr (pyOr c.url c.link) c.original_url

/-- The loop of `fallback_links_from_chunks` with its `seen` set and
accumulated links made explicit. -/
def fallbackAux (seen : List Str) (links : List Citation) : List Chunk → List Citation
  | [] => links
  | c :: cs =>
    match chunkFallbackUrl c with
    | some url =>
      if url ≠ [] ∧ url ∉ seen then
        fallbackAux (url :: seen) (links ++ [⟨url, (c.text.getD []).take 100 ++ pystr "..."⟩]) cs
      else fallbackAux seen links cs
    | none => fallbackAux seen links cs

/-- `fallback_links_from_chunks` (lines 244-252 of `core.py`). -/
def fallback_links_from_chunks (chunks : List Chunk) : List Citation :=
  fallbackAux [] [] chunks

/-- The URL a chunk contributes to the fallback derivation, `none` when
its URL-bearing fields are all falsy (the `if url` guard). -/
def truthyUrl (c : Chunk) : Option Str :=
  match chunkFallbackUrl c with
  | some u => if u = [] then none else some u
  | none => none

/-! ## Retrieval

`qdrant_client.search` returns scored points; `search_similar_chunks`
keeps only their payloads. -/

/-- A point returned by the vector search: the similarity score computed
by the search and the payload stored at ingestion time. -/
structure ScoredPoint where
  score : ℚ
  payload : Chunk
deriving DecidableEq

/-- `search_similar_chunks` (lines 58-67 of `core.py`):
`return [hit.payload for hit in hits]`.  The search call itself is an
external collaborator, so the hit list it produced is a parameter. -/
def search_similar_chunks (hits : List ScoredPoint) : List Chunk :=
  hits.map (·.payload)

/-! ## Retry policies (`tenacity.retry` with `stop_after_attempt` and
`reraise=True`)

A fallible collaborator is modelled as a function from the attempt
index to an `Except` result.  The wrapper makes up to `n` attempts and
returns the first success, or the last error once the attempts are
exhausted; it also reports how many attempts were made. -/

/-- `retryWithCount call i n`: run attempts `i, i+1, ...` with at most
`n` attempts remaining, returning the result together with the number of
attempts actually made. -/
def retryWithCount {E A : Type} (call : Nat → Except E A) : Nat → Nat → Except E A × Nat
  | i, 0 => (call i, 1)
  | i, 1 => (call i, 1)
  | i, k + 2 =>
    match call i with
    | .ok a => (.ok a, 1)
    | .error _ =>
      let r := retryWithCount call (i + 1) (k + 1)
      (r.1, r.2 + 1)

/-- `_call_ocr_api` (lines 95-110 of `core.py`): the OCR call retried
with `stop_after_attempt(3)`; a success is the list of page markdown
strings of the response. -/
def call_ocr_api (ocr : Nat → Except Unit (List Str)) : Except Unit (List Str) :=
  (retryWithCount ocr 0 3).1

/-- The number of attempts the OCR retry wrapper makes. -/
def ocrAttempts (ocr : Nat → Except Unit (List Str)) : Nat :=
  (retryWithCount ocr 0 3).2

/-- `extract_text_from_image` (lines 114-121 of `core.py`): join the
page markdowns with blank lines; any exception surviving the retries
degrades to the empty string. -/
def extract_text_from_image (ocr : Nat → Except Unit (List Str)) : Str :=
  match call_ocr_api ocr with
  | .ok pages => joinSep (pystr "\n\n") pages
  | .error _ => []

/-- `_call_llm_with_retry` (lines 135-149 of `core.py`): the chat call
retried with `stop_after_attempt(5)`; a success is the stripped message
content. -/
def call_llm_with_retry (llm : Nat → Except Unit Str) : Except Unit Str :=
  (retryWithCount (fun i => (llm i).map pyStrip) 0 5).1

/-- The number of attempts the generation retry wrapper makes. -/
def llmAttempts (llm : Nat → Except Unit Str) : Nat :=
  (retryWithCount llm 0 5).2

/-- The per-chunk context block of lines 154-158 of `core.py`. -/
def contextBlock (c : Chunk) : Str :=
  let sourceType :=
    if c.source = some (pystr "discourse") then pystr "Discourse post" else pystr "Course material"
  let url := pyOr c.url c.original_url
  pystr "\n\n" ++ sourceType ++ pystr " (URL: " ++ pyShowOpt url ++ pystr "):\n"
    ++ (c.text.getD (c.content.getD [])).take 1500

/-- The grounding prompt of lines 160-184 of `core.py` (the instruction
text around the interpolated context and question; apostrophes written
as `\x27`). -/
def promptFor (context question : Str) : Str :=
  pystr "\n\n    You are a senior TA for the Tools in Data Science course, your job is to provide 100% accurate information from the context with references to relevant sources. \n    Answer the following question based ONLY on the provided context. \n    Carefully read the complete provided discourse discussion or course material documentation step-by-step from top to botton and then find out the exact accurate answer to the question. \n    If context is neutral and doesn\x27t provide a clear answer, think step-by-step and provide a one clear answer based on the discussion on the discourse posts or course material.\n    If you cannot answer the question based on the context, say \"I don\x27t have enough information to answer this question.\"\n    \n    Context:\n    "
  ++ context
  ++ pystr "\n    \n    Question: "
  ++ question
  ++ pystr "\n    \n    Read the complete discourse discussion and other context carefully and return your response in this exact format:\n    A complete answer with two fields:\n    <A comprehensive yet concise and to the point answer>\n    <A \"Sources:\" section that must lists the URLs and relevant text snippets you used to answer>\n    \n    Sources must be in this exact format:\n    Sources:\n    1. URL: [exact_url_1], Text: [brief quote or description]\n    2. URL: [exact_url_2], Text: [brief quote or description]\n    \n    Make sure the URLs are copied exactly from the context without any changes.\n    "

/-- The fixed degraded-service message of line 190 of `core.py`. -/
def llmDegradedMessage : Str :=
  pystr "The system is currently overloaded or encountered an error. Please try again."

/-- `generate_llm_answer` (lines 153-190 of `core.py`): build the
context and prompt, invoke the retried generation call, and degrade to
the fixed message when the retries are exhausted. -/
def generate_llm_answer (llm : Str → Nat → Except Unit Str) (question : Str)
    (docs : List Chunk) : Str :=
  let context := (docs.map contextBlock).foldl (· ++ ·) []
  let prompt := promptFor context question
  match call_llm_with_retry (llm prompt) with
  | .ok result => result
  | .error _ => llmDegradedMessage

/-! ## The orchestrator -/

/-- The pipeline stages, recorded in a trace to state which
collaborators a run invokes. -/
inductive Stage where
  | normalize | ocr | embed | search | aggregate | synthesize | parse | fallback
deriving DecidableEq

/-- Exceptions that can escape the orchestrator: the `HTTPException` of
the image normalizer and the `ValueError` of
`process_multimodal_query`. -/
inductive PyErr where
  | httpError | valueError
deriving DecidableEq

/-- The external collaborators of one request, over an abstract
embedding-vector type `E`: the image normalizer (which may raise), the
OCR call per attempt for a given image, the embedding model, the vector
search (producing scored points for an embedding) and the generation
call per attempt for a given prompt. -/
structure Collab (E : Type) where
  normalize : Str → Except PyErr Str
  ocrPages : Str → Nat → Except Unit (List Str)
  embed : Str → E
  hits : E → List ScoredPoint
  llm : Str → Nat → Except Unit Str

/-- `process_multimodal_query` (lines 125-132 of `core.py`): when the
image is truthy, normalize it (propagating a normalizer exception),
raise `ValueError` when the normalized form is falsy, extract text via
OCR, and embed question text plus newline plus vision text; otherwise
embed the question text directly.  The trace records the collaborators
invoked. -/
def process_multimodal_query {E : Type} (c : Collab E) (text : Str) (image : Option Str) :
    Except PyErr (E × List Stage) :=
  if truthyOpt image then
    match c.normalize (image.getD []) with
    | .error e => .error e
    | .ok nimg =>
      if nimg = [] then .error .valueError
      else
        let visionText := extract_text_from_image (c.ocrPages nimg)
        .ok (c.embed (text ++ pystr "\n" ++ visionText), [.normalize, .ocr, .embed])
  else .ok (c.embed text, [.embed])

/-- The terminal answer of the empty-retrieval short-circuit (line 37 of
`core.py`). -/
def noResultsAnswer : ParsedAnswer := ⟨pystr "No relevant results found.", []⟩

/-- Lines 33 and 40 of `core.py`: the question augmented with the text
extracted (by a second OCR pass on the raw image) when the image and the
extracted text are truthy. -/
def augmentedQuestion {E : Type} (c : Collab E) (question : Str) (image : Option Str) : Str :=
  let extractedText :=
    if truthyOpt image then extract_text_from_image (c.ocrPages (image.getD [])) else []
  question ++
    (if extractedText ≠ [] then
      pystr "\n\nExtracted text from attached image:\n" ++ extractedText
    else [])

/-- The raw generated text of a request whose retrieval produced the
embedding `emb`: the synthesizer applied to the augmented question and
the aggregated chunks. -/
def synthesizedResponse {E : Type} (c : Collab E) (question : Str) (image : Option Str)
    (emb : E) : Str :=
  generate_llm_answer c.llm (augmentedQuestion c question image)
    (group_and_deduplicate_chunks (search_similar_chunks (c.hits emb)))

/-- `handle_query` (lines 31-47 of `core.py`): encode, OCR the raw image
again for the question augmentation, search, short-circuit on an empty
result, aggregate, synthesize, parse, and replace empty links by the
fallback derivation from the original chunks.  Returns the result
together with the trace of invoked stages. -/
def handle_query {E : Type} (c : Collab E) (question : Str) (image : Option Str) :
    Except PyErr (ParsedAnswer × List Stage) :=
  match process_multimodal_query c question image with
  | .error e => .error e
  | .ok (emb, tr1) =>
    let tr2 := tr1 ++ (if truthyOpt image then [Stage.ocr] else [])
    let relevantChunks := search_similar_chunks (c.hits emb)
    let tr3 := tr2 ++ [Stage.search]
    if relevantChunks = [] then .ok (noResultsAnswer, tr3)
    else
      let parsed := parse_llm_response (synthesizedResponse c question image emb)
      let final :=
        if parsed.links = [] then ⟨parsed.answer, fallback_links_from_chunks relevantChunks⟩
        else parsed
      .ok (final, tr3 ++ [Stage.aggregate, Stage.synthesize, Stage.parse]
        ++ (if parsed.links = [] then [Stage.fallback] else []))

/-- The `image` field validator of `QueryRequest` (lines 14-18 of
`schemas.py`): reject a truthy image longer than 5,000,000 characters. -/
def image_size_limit (v : Option Str) : Except PyErr (Option Str) :=
  if truthyOpt v ∧ (v.getD []).length > 5000000 then .error .valueError else .ok v

/-! ## Concrete data used by counterexamples and witnesses -/

/-- A discourse payload as stored by the ingestion pipeline: it carries
no `score` field. -/
def discoursePayload : Chunk :=
  { source := some (pystr "discourse"), post_id := some (pystr "155939"),
    url := some (pystr "https://discourse.example/t/155939"),
    text := some (pystr "the deadline is Friday") }

/-- Counterexample chunks for the aggregation stability claim: `chA` and
`chC` share a group, `chB` sits in a different group, and `chB`, `chC`
have equal scores. -/
def chA : Chunk :=
  { source := some (pystr "discourse"), post_id := some (pystr "1"), score := some 1 }

/-- Second counterexample chunk (own group, score 5). -/
def chB : Chunk :=
  { source := some (pystr "discourse"), post_id := some (pystr "2"), score := some 5 }

/-- Third counterexample chunk (same group as `chA`, score 5). -/
def chC : Chunk :=
  { source := some (pystr "discourse"), post_id := some (pystr "1"), score := some 5 }

/-- A chunk whose URL does not use an HTTP scheme. -/
def ftpChunk : Chunk :=
  { url := some (pystr "ftp://files.example/a"), text := some (pystr "file notes") }

/-- Chunks `[{url:"a"}, {url:"b"}, {url:"a"}]` of the fallback
derivation example. -/
def c7Chunks : List Chunk :=
  [{ url := some (pystr "a") }, { url := some (pystr "b") }, { url := some (pystr "a") }]

/-- A collaborator whose search returns no hits (used to witness the
empty-retrieval short-circuit). -/
def collabEmpty : Collab Unit :=
  { normalize := fun _ => .ok (pystr "img"), ocrPages := fun _ _ => .error (),
    embed := fun _ => (), hits := fun _ => [], llm := fun _ _ => .error () }

/-- A collaborator whose search returns one discourse hit and whose
generation returns a headerless text (used to witness the fallback
path). -/
def collabNoHeader : Collab Unit :=
  { normalize := fun _ => .ok (pystr "img"), ocrPages := fun _ _ => .error (),
    embed := fun _ => (), hits := fun _ => [⟨9/10, discoursePayload⟩],
    llm := fun _ _ => .ok (pystr "I do not know") }

/-! # Theorems

## Shared helper lemmas -/

theorem pySplit1_ne_nil (sep s : Str) : pySplit1 sep s ≠ [] := by
  unfold pySplit1
  split <;> simp

theorem splitHeader_ne_nil (r : Str) : splitHeader r ≠ [] := by
  unfold splitHeader
  split
  · simp
  · split
    · exact pySplit1_ne_nil _ _
    · simp

/-- The `except` branch of the parser is never taken: the `try` body
always produces a result. -/
theorem parseE_ok (r : Str) : parse_llm_responseE r = Except.ok (parse_llm_response r) := by
  cases hs : splitHeader r with
  | nil => exact absurd hs (splitHeader_ne_nil r)
  | cons a rest => simp only [parse_llm_response, parse_llm_responseE, hs]

/-- Any citation produced by the line loop that is not in the
accumulator satisfies the `http` guard. -/
theorem mem_processLine {acc : List Citation} {line : Str} {l : Citation}
    (h : l ∈ processLine acc line) :
    l ∈ acc ∨ (l.url ≠ [] ∧ (pystr "http").isPrefixOf l.url) := by
  unfold processLine at h
  dsimp only at h
  split at h
  · exact Or.inl h
  · split at h
    · exact Or.inl h
    · split at h
      · rename_i hguard
        rcases List.mem_append.mp h with h' | h'
        · exact Or.inl h'
        · rcases List.mem_singleton.mp h' with rfl
          exact Or.inr hguard
      · exact Or.inl h

theorem mem_foldl_processLine :
    ∀ (lines : List Str) (acc : List Citation) (l : Citation),
      l ∈ lines.foldl processLine acc →
      l ∈ acc ∨ (l.url ≠ [] ∧ (pystr "http").isPrefixOf l.url) := by
  intro lines
  induction lines with
  | nil => intro acc l h; exact Or.inl h
  | cons line rest ih =>
    intro acc l h
    rcases ih (processLine acc line) l h with h' | hp
    · exact mem_processLine h'
    · exact Or.inr hp

/-- Every citation the parser outputs satisfies the `http` guard. -/
theorem parse_links_http {r : Str} {l : Citation} (h : l ∈ (parse_llm_response r).links) :
    l.url ≠ [] ∧ (pystr "http").isPrefixOf l.url := by
  cases hs : splitHeader r with
  | nil => exact absurd hs (splitHeader_ne_nil r)
  | cons a rest =>
    simp only [parse_llm_response, parse_llm_responseE, hs] at h
    cases rest with
    | nil => simp at h
    | cons after _ =>
      rcases mem_foldl_processLine _ [] l h with h' | hp
      · simp at h'
      · exact hp

/-- Every citation the fallback loop adds beyond the accumulator has a
truthy URL. -/
theorem mem_fallbackAux :
    ∀ (cs : List Chunk) (seen : List Str) (links : List Citation) (l : Citation),
      l ∈ fallbackAux seen links cs → l ∈ links ∨ l.url ≠ [] := by
  intro cs
  induction cs with
  | nil => intro seen links l h; exact Or.inl h
  | cons c cs ih =>
    intro seen links l h
    unfold fallbackAux at h
    split at h
    · rename_i u hu
      split at h
      · rename_i hguard
        rcases ih _ _ _ h with h' | h'
        · rcases List.mem_append.mp h' with h'' | h''
          · exact Or.inl h''
          · rcases List.mem_singleton.mp h'' with rfl
            exact Or.inr hguard.1
        · exact Or.inr h'
      · exact ih _ _ _ h
    · exact ih _ _ _ h

/-! ## Claim C1 — retrieval does not attach the similarity score -/

/-- **C1** (code bug).  `search_similar_chunks` returns the stored
payloads unchanged: for a hit whose similarity is `9/10` but whose
payload — as written by the ingestion pipeline — has no `score` field,
the returned chunk still has no `score`, and the aggregator will rank it
as score `0`.  This contradicts the spec requirement that retrieval
attach the computed similarity score to each returned chunk. -/
theorem search_similar_chunks_drops_score :
    (search_similar_chunks [⟨9/10, discoursePayload⟩]).map Chunk.score = [none] ∧
    scoreD discoursePayload = 0 ∧
    ((9 : ℚ)/10) ≠ 0 := by
  refine ⟨rfl, rfl, by norm_num⟩

/-! ## Claim C8 — the parser is total -/

/-- **C8**.  `parse_llm_response` is total over all input strings: the
`try` body always yields an `{answer, links}` structure, so the
`except` branch (which would convert an internal exception to the safe
default) is never taken, and the function never raises. -/
theorem parse_llm_response_total (r : Str) :
    parse_llm_responseE r = Except.ok (parse_llm_response r) :=
  parseE_ok r

/-! ## Claim C4 — citation URLs and the HTTP scheme -/

/-- **C4** (counterexample).  The fallback derivation does not enforce
an HTTP scheme: a chunk with URL `ftp://files.example/a` yields a
citation whose URL does not start with `http`, refuting the claim that
every citation produced by the pipeline has an HTTP URL. -/
theorem fallback_http_cex :
    (fallback_links_from_chunks [ftpChunk]).map Citation.url = [pystr "ftp://files.example/a"] ∧
    (pystr "http").isPrefixOf (pystr "ftp://files.example/a") = false := by
  constructor <;> rfl

/-- **C4** (amended).  Every citation parsed from a model response has a
URL starting with `http`; every citation produced by the fallback
derivation has a truthy (non-empty) URL, but not necessarily an HTTP
one. -/
theorem citation_url_guarantees :
    (∀ (r : Str) (l : Citation), l ∈ (parse_llm_response r).links →
        (pystr "http").isPrefixOf l.url) ∧
    (∀ (chunks : List Chunk) (l : Citation), l ∈ fallback_links_from_chunks chunks →
        l.url ≠ []) := by
  constructor
  · intro r l h
    exact (parse_links_http h).2
  · intro chunks l h
    rcases mem_fallbackAux chunks [] [] l h with h' | h'
    · simp at h'
    · exact h'

/-- Witness for C4 (amended): a parsed citation of a concrete response
starts with `http`, and a concrete fallback citation is non-empty. -/
theorem citation_url_guarantees_witness :
    (pystr "http").isPrefixOf
        (Citation.mk (pystr "http://e.com") (pystr "desc")).url = true ∧
    (Citation.mk (pystr "ftp://files.example/a") (pystr "file notes...")).url ≠ [] := by
  constructor
  · exact citation_url_guarantees.1
      (pystr "ans\n\nSources:\n1. URL: [http://e.com], Text: [desc]")
      ⟨pystr "http://e.com", pystr "desc"⟩ (by decide)
  · exact citation_url_guarantees.2 [ftpChunk]
      ⟨pystr "ftp://files.example/a", pystr "file notes..."⟩ (by decide)

/-! ## Claim C5 — empty-retrieval short circuit -/

/-- A successful encoding stage records either just the embedding call,
or the normalize/OCR/embed sequence. -/
theorem process_multimodal_trace {E : Type} {c : Collab E} {q : Str} {img : Option Str}
    {emb : E} {tr : List Stage}
    (h : process_multimodal_query c q img = .ok (emb, tr)) :
    tr = [Stage.embed] ∨ tr = [Stage.normalize, Stage.ocr, Stage.embed] := by
  unfold process_multimodal_query at h
  split at h
  · split at h
    · exact absurd h (by simp)
    · split at h
      · exact absurd h (by simp)
      · right
        simp only [Except.ok.injEq, Prod.mk.injEq] at h
        exact h.2.symm
  · left
    simp only [Except.ok.injEq, Prod.mk.injEq] at h
    exact h.2.symm

/-- **C5**.  When the encoding stage succeeds and the vector search
returns no hits, the orchestrator returns exactly
`{answer: "No relevant results found.", links: []}`, and its stage
trace contains neither aggregation, nor the synthesizer, nor the
parser, nor the fallback derivation. -/
theorem empty_retrieval_short_circuit {E : Type} (c : Collab E) (q : Str) (img : Option Str)
    (emb : E) (tr : List Stage)
    (hpm : process_multimodal_query c q img = .ok (emb, tr))
    (hs : c.hits emb = []) :
    ∃ tr', handle_query c q img = .ok (noResultsAnswer, tr') ∧
      Stage.aggregate ∉ tr' ∧ Stage.synthesize ∉ tr' ∧
      Stage.parse ∉ tr' ∧ Stage.fallback ∉ tr' := by
  refine ⟨tr ++ (if truthyOpt img then [Stage.ocr] else []) ++ [Stage.search], ?_, ?_⟩
  · unfold handle_query
    rw [hpm]
    simp [search_similar_chunks, hs]
  · rcases process_multimodal_trace hpm with rfl | rfl <;>
      cases hio : truthyOpt img <;> simp [hio]

/-- Witness for C5 at a concrete collaborator whose search returns no
hits. -/
theorem empty_retrieval_short_circuit_witness :
    ∃ tr', handle_query collabEmpty (pystr "q") none = .ok (noResultsAnswer, tr') ∧
      Stage.aggregate ∉ tr' ∧ Stage.synthesize ∉ tr' ∧
      Stage.parse ∉ tr' ∧ Stage.fallback ∉ tr' :=
  empty_retrieval_short_circuit collabEmpty (pystr "q") none () [Stage.embed] rfl rfl

/-! ## Claim C10 — an empty-string image behaves like an absent image -/

/-- **C10**.  For an image that is `None` or the empty string, the size
validator accepts, `process_multimodal_query` embeds the question text
directly (invoking neither the normalizer nor OCR), and `handle_query`
returns a result without error and without ever invoking normalization
or OCR. -/
theorem empty_image_like_absent {E : Type} (c : Collab E) (q : Str) (img : Option Str)
    (himg : img = none ∨ img = some []) :
    image_size_limit img = .ok img ∧
    process_multimodal_query c q img = .ok (c.embed q, [Stage.embed]) ∧
    ∃ res tr, handle_query c q img = .ok (res, tr) ∧
      Stage.normalize ∉ tr ∧ Stage.ocr ∉ tr := by
  have hio : truthyOpt img = false := by rcases himg with rfl | rfl <;> rfl
  have hpm : process_multimodal_query c q img = .ok (c.embed q, [Stage.embed]) := by
    unfold process_multimodal_query
    simp [hio]
  refine ⟨?_, hpm, ?_⟩
  · unfold image_size_limit
    rw [if_neg]
    intro hc
    rw [hio] at hc
    exact absurd hc.1 (by simp)
  · by_cases hc : search_similar_chunks (c.hits (c.embed q)) = []
    · refine ⟨noResultsAnswer, [Stage.embed, Stage.search], ?_, by decide, by decide⟩
      unfold handle_query
      rw [hpm]
      simp [hc, hio]
    · by_cases hl :
        (parse_llm_response (synthesizedResponse c q img (c.embed q))).links = []
      · refine ⟨⟨(parse_llm_response (synthesizedResponse c q img (c.embed q))).answer,
          fallback_links_from_chunks (search_similar_chunks (c.hits (c.embed q)))⟩,
          [Stage.embed, Stage.search, Stage.aggregate, Stage.synthesize, Stage.parse,
            Stage.fallback], ?_, by decide, by decide⟩
        unfold handle_query
        rw [hpm]
        simp [hc, hio, hl]
      · refine ⟨parse_llm_response (synthesizedResponse c q img (c.embed q)),
          [Stage.embed, Stage.search, Stage.aggregate, Stage.synthesize, Stage.parse],
          ?_, by decide, by decide⟩
        unfold handle_query
        rw [hpm]
        simp [hc, hio, hl]

/-- Witness for C10 at the empty-string image and a concrete
collaborator. -/
theorem empty_image_like_absent_witness :
    image_size_limit (some []) = .ok (some []) ∧
    process_multimodal_query collabEmpty (pystr "q") (some []) =
      .ok (collabEmpty.embed (pystr "q"), [Stage.embed]) ∧
    ∃ res tr, handle_query collabEmpty (pystr "q") (some []) = .ok (res, tr) ∧
      Stage.normalize ∉ tr ∧ Stage.ocr ∉ tr :=
  empty_image_like_absent collabEmpty (pystr "q") (some []) (Or.inr rfl)

/-! ## Claim C6 — bounded retries and silent degradation -/

/-- The retry wrapper makes at most `max 1 n` attempts. -/
theorem retryWithCount_attempts_le {E A : Type} (f : Nat → Except E A) :
    ∀ (n i : Nat), (retryWithCount f i n).2 ≤ max 1 n := by
  intro n
  induction n with
  | zero => intro i; simp [retryWithCount]
  | succ k ih =>
    intro i
    cases k with
    | zero => simp [retryWithCount]
    | succ m =>
      show (retryWithCount f i (m + 2)).2 ≤ max 1 (m + 2)
      unfold retryWithCount
      cases f i with
      | ok a => simp
      | error e =>
        have := ih (i + 1)
        simp only []
        omega

/-- When every attempt in the window fails, the retry wrapper surfaces
an error. -/
theorem retryWithCount_all_error {E A : Type} (f : Nat → Except E A) :
    ∀ (n i : Nat), 1 ≤ n → (∀ k, i ≤ k → k < i + n → ∃ e, f k = .error e) →
    ∃ e, (retryWithCount f i n).1 = .error e := by
  intro n
  induction n with
  | zero => intro i h; omega
  | succ k ih =>
    intro i _ hfail
    cases k with
    | zero =>
      obtain ⟨e, he⟩ := hfail i le_rfl (by omega)
      exact ⟨e, by simp [retryWithCount, he]⟩
    | succ m =>
      obtain ⟨e, he⟩ := hfail i le_rfl (by omega)
      show ∃ e, (retryWithCount f i (m + 2)).1 = .error e
      unfold retryWithCount
      rw [he]
      exact ih (i + 1) (by omega) (fun k hk1 hk2 => hfail k (by omega) (by omega))

/-- When the first success in the window is at attempt `j`, the retry
wrapper returns it. -/
theorem retryWithCount_first_ok {E A : Type} (f : Nat → Except E A) (v : A) :
    ∀ (n i j : Nat), i ≤ j → j < i + n →
      (∀ k, i ≤ k → k < j → ∃ e, f k = .error e) → f j = .ok v →
      (retryWithCount f i n).1 = .ok v := by
  intro n
  induction n with
  | zero => intro i j h1 h2; omega
  | succ k ih =>
    intro i j h1 h2 hfail hok
    cases k with
    | zero =>
      have : j = i := by omega
      subst this
      simp [retryWithCount, hok]
    | succ m =>
      show (retryWithCount f i (m + 2)).1 = .ok v
      by_cases hij : j = i
      · subst hij
        unfold retryWithCount
        rw [hok]
      · have hlt : i < j := lt_of_le_of_ne h1 (Ne.symm hij)
        obtain ⟨e, he⟩ := hfail i le_rfl hlt
        unfold retryWithCount
        rw [he]
        exact ih (i + 1) j (by omega) (by omega)
          (fun k hk1 hk2 => hfail k (by omega) hk2) hok

/-- **C6**.  The OCR call is attempted at most 3 times and the
generation call at most 5 times; exhausted OCR retries degrade to the
empty extracted text; exhausted generation retries degrade to the fixed
service message; and a generation collaborator that fails 4 times and
then succeeds yields the success value (its stripped content) without
surfacing an error. -/
theorem retry_and_degradation :
    (∀ ocr : Nat → Except Unit (List Str), ocrAttempts ocr ≤ 3) ∧
    (∀ llm : Nat → Except Unit Str, llmAttempts llm ≤ 5) ∧
    (∀ ocr : Nat → Except Unit (List Str), (∀ k, k < 3 → ocr k = .error ()) →
        extract_text_from_image ocr = []) ∧
    (∀ (llm : Str → Nat → Except Unit Str) (q : Str) (docs : List Chunk),
        (∀ p k, llm p k = .error ()) →
        generate_llm_answer llm q docs = llmDegradedMessage) ∧
    (∀ (llm : Str → Nat → Except Unit Str) (q : Str) (docs : List Chunk) (v : Str),
        (∀ p k, k < 4 → llm p k = .error ()) → (∀ p, llm p 4 = .ok v) →
        generate_llm_answer llm q docs = pyStrip v) := by
  refine ⟨?_, ?_, ?_, ?_, ?_⟩
  · intro ocr
    have := retryWithCount_attempts_le ocr 3 0
    simpa [ocrAttempts] using this
  · intro llm
    have := retryWithCount_attempts_le llm 5 0
    simpa [llmAttempts] using this
  · intro ocr hfail
    obtain ⟨e, he⟩ := retryWithCount_all_error ocr 3 0 (by omega)
      (fun k _ hk => ⟨(), hfail k (by omega)⟩)
    unfold extract_text_from_image call_ocr_api
    rw [he]
  · intro llm q docs hfail
    obtain ⟨e, he⟩ := retryWithCount_all_error
      (fun i => (llm (promptFor ((docs.map contextBlock).foldl (· ++ ·) []) q) i).map pyStrip)
      5 0 (by omega) (fun k _ _ => ⟨(), by simp [hfail]; rfl⟩)
    unfold generate_llm_answer call_llm_with_retry
    dsimp only
    rw [he]
  · intro llm q docs v hfail hok
    have hr := retryWithCount_first_ok
      (fun i => (llm (promptFor ((docs.map contextBlock).foldl (· ++ ·) []) q) i).map pyStrip)
      (pyStrip v) 5 0 4 (by omega) (by omega)
      (fun k _ hk => ⟨(), by simp [hfail _ _ hk]; rfl⟩)
      (by simp [hok]; rfl)
    unfold generate_llm_answer call_llm_with_retry
    dsimp only
    rw [hr]

/-- Witness for C6 at concrete collaborators: an always-failing OCR and
generation pair, and a generation collaborator succeeding on its fifth
attempt. -/
theorem retry_and_degradation_witness :
    ocrAttempts (fun _ => .error ()) ≤ 3 ∧
    extract_text_from_image (fun _ => .error ()) = [] ∧
    generate_llm_answer (fun _ _ => .error ()) (pystr "q") [] = llmDegradedMessage ∧
    generate_llm_answer (fun _ k => if k < 4 then .error () else .ok (pystr " fine "))
      (pystr "q") [] = pystr "fine" := by
  refine ⟨retry_and_degradation.1 _, retry_and_degradation.2.2.1 _ (fun k _ => rfl),
    retry_and_degradation.2.2.2.1 _ _ _ (fun p k => rfl), ?_⟩
  have h := retry_and_degradation.2.2.2.2
    (fun _ k => if k < 4 then .error () else .ok (pystr " fine "))
    (pystr "q") [] (pystr " fine ")
    (fun p k hk => by simp [hk]) (fun p => by simp)
  rw [h]
  decide

/-! ## Claim C7 — the fallback derivation -/

/-- The URLs emitted by the fallback loop are the first-occurrence
deduplication of the truthy URLs of the chunks, in input order. -/
theorem fallbackAux_map_url :
    ∀ (cs : List Chunk) (seen : List Str) (links : List Citation),
      (fallbackAux seen links cs).map Citation.url
        = links.map Citation.url ++ firstOccurAux seen (cs.filterMap truthyUrl) := by
  intro cs
  induction cs with
  | nil => intro seen links; simp [fallbackAux, firstOccurAux]
  | cons c cs ih =>
    intro seen links
    unfold fallbackAux
    cases hu : chunkFallbackUrl c with
    | none => simp [truthyUrl, hu, ih]
    | some u =>
      dsimp only
      by_cases hne : u = []
      · subst hne
        rw [if_neg (by simp)]
        simp [truthyUrl, hu, ih]
      · by_cases hseen : u ∈ seen
        · rw [if_neg (by simp [hseen])]
          simp [truthyUrl, hu, hne, ih, firstOccurAux, hseen]
        · rw [if_pos ⟨hne, hseen⟩]
          simp [truthyUrl, hu, hne, ih, firstOccurAux, hseen]

/-- Every citation the fallback loop adds beyond its accumulator comes
from a chunk of the input, with the chunk's truncated text. -/
theorem fallbackAux_provenance :
    ∀ (cs : List Chunk) (seen : List Str) (links : List Citation) (l : Citation),
      l ∈ fallbackAux seen links cs → l ∈ links ∨
        ∃ c ∈ cs, truthyUrl c = some l.url ∧
          l.text = (c.text.getD []).take 100 ++ pystr "..." := by
  intro cs
  induction cs with
  | nil => intro seen links l h; exact Or.inl h
  | cons c cs ih =>
    intro seen links l h
    have weaken :
        (∃ d ∈ cs, truthyUrl d = some l.url ∧
            l.text = (d.text.getD []).take 100 ++ pystr "...") →
        ∃ d ∈ c :: cs, truthyUrl d = some l.url ∧
            l.text = (d.text.getD []).take 100 ++ pystr "..." := by
      rintro ⟨d, hd, hprop⟩
      exact ⟨d, List.mem_cons_of_mem c hd, hprop⟩
    unfold fallbackAux at h
    split at h
    · rename_i u hu
      split at h
      · rename_i hguard
        rcases ih _ _ _ h with h' | h'
        · rcases List.mem_append.mp h' with h'' | h''
          · exact Or.inl h''
          · rcases List.mem_singleton.mp h'' with rfl
            refine Or.inr ⟨c, List.mem_cons_self c cs, ?_, rfl⟩
            simp [truthyUrl, hu, hguard.1]
        · exact Or.inr (weaken h')
      · rcases ih _ _ _ h with h' | h'
        · exact Or.inl h'
        · exact Or.inr (weaken h')
    · rcases ih _ _ _ h with h' | h'
      · exact Or.inl h'
      · exact Or.inr (weaken h')

/-- **C7**.  The fallback derivation iterates the chunks in order,
emits a citation only for a chunk whose `url`/`link`/`original_url`
lookup is truthy and whose URL was not already seen, deduplicates by URL
keeping first occurrences (its URL sequence is the first-occurrence
deduplication of the chunk URLs, in input order), and sets each
citation's text to the chunk's text truncated to 100 characters plus an
ellipsis; in particular chunks `[{url:"a"}, {url:"b"}, {url:"a"}]`
yield citations with URLs `[a, b]`. -/
theorem fallback_derivation_spec :
    (∀ chunks : List Chunk,
        (fallback_links_from_chunks chunks).map Citation.url
            = firstOccur (chunks.filterMap truthyUrl) ∧
        ∀ l ∈ fallback_links_from_chunks chunks, ∃ c ∈ chunks,
          truthyUrl c = some l.url ∧
          l.text = (c.text.getD []).take 100 ++ pystr "...") ∧
    (fallback_links_from_chunks c7Chunks).map Citation.url = [pystr "a", pystr "b"] := by
  refine ⟨fun chunks => ⟨?_, ?_⟩, by decide⟩
  · simpa using fallbackAux_map_url chunks [] []
  · intro l h
    rcases fallbackAux_provenance chunks [] [] l h with h' | h'
    · simp at h'
    · exact h'

/-- Witness for C7: the general characterisation applied to the
`[a, b, a]` example, and the provenance of its first citation. -/
theorem fallback_derivation_spec_witness :
    (fallback_links_from_chunks c7Chunks).map Citation.url
        = firstOccur (c7Chunks.filterMap truthyUrl) ∧
    (∃ c ∈ c7Chunks, truthyUrl c = some (pystr "a") ∧
        pystr "..." = (c.text.getD []).take 100 ++ pystr "...") := by
  constructor
  · exact (fallback_derivation_spec.1 c7Chunks).1
  · exact (fallback_derivation_spec.1 c7Chunks).2 ⟨pystr "a", pystr "..."⟩ (by decide)

/-! ## Claim C9 — the fallback replaces only the links -/

/-- A string containing no occurrence of `sep` does not split on it. -/
theorem splitFirst_eq_none (sep : Str) :
    ∀ s, containsSub sep s = false → splitFirst sep s = none := by
  intro s
  induction s with
  | nil => intro _; rfl
  | cons c s ih =>
    intro h
    unfold containsSub at h
    rcases Bool.or_eq_false_iff.mp h with ⟨h1, h2⟩
    unfold splitFirst
    rw [if_neg (by simp [h1]), ih h2]
    rfl

/-- A response containing none of the recognized headers parses to the
whole trimmed text with no links. -/
theorem parse_no_header (G : Str)
    (h1 : containsSub (pystr "Sources:") G = false)
    (h2 : containsSub (pystr "Source:") G = false)
    (h3 : containsSub (pystr "References:") G = false)
    (h4 : containsSub (pystr "Reference:") G = false) :
    parse_llm_response G = ⟨pyStrip G, []⟩ := by
  have hs : splitHeader G = [G] := by
    unfold splitHeader
    rw [splitFirst_eq_none _ _ h1]
    simp [headerAlternates, h2, h3, h4]
  simp only [parse_llm_response, parse_llm_responseE, hs]

/-- **C9**.  When the parser yields zero citations, the orchestrator's
result keeps the parsed answer verbatim and only the links field is
replaced by the fallback derivation over the original pre-aggregation
chunks; and a generated text containing none of the recognized headers
(and no URL pattern) parses to the entire trimmed text with no links. -/
theorem fallback_replaces_links_only :
    (∀ (E : Type) (c : Collab E) (q : Str) (img : Option Str) (emb : E) (tr : List Stage),
        process_multimodal_query c q img = .ok (emb, tr) →
        search_similar_chunks (c.hits emb) ≠ [] →
        (parse_llm_response (synthesizedResponse c q img emb)).links = [] →
        ∃ tr', handle_query c q img =
          .ok (⟨(parse_llm_response (synthesizedResponse c q img emb)).answer,
                fallback_links_from_chunks (search_similar_chunks (c.hits emb))⟩, tr')) ∧
    (∀ G : Str,
        containsSub (pystr "Sources:") G = false →
        containsSub (pystr "Source:") G = false →
        containsSub (pystr "References:") G = false →
        containsSub (pystr "Reference:") G = false →
        reSearch urlAltsAt G = none →
        parse_llm_response G = ⟨pyStrip G, []⟩) := by
  constructor
  · intro E c q img emb tr hpm hne hlinks
    refine ⟨tr ++ (if truthyOpt img then [Stage.ocr] else []) ++ [Stage.search]
      ++ [Stage.aggregate, Stage.synthesize, Stage.parse] ++ [Stage.fallback], ?_⟩
    unfold handle_query
    rw [hpm]
    simp [hne, hlinks]
  · intro G h1 h2 h3 h4 _
    exact parse_no_header G h1 h2 h3 h4

/-- Witness for C9: a collaborator whose generation returns the
headerless text `I do not know`; the orchestrator keeps that text as
the answer and fills the links from the retrieved chunk. -/
theorem fallback_replaces_links_only_witness :
    (∃ tr', handle_query collabNoHeader (pystr "q") none =
        .ok (⟨(parse_llm_response (synthesizedResponse collabNoHeader (pystr "q") none ())).answer,
              fallback_links_from_chunks
                (search_similar_chunks (collabNoHeader.hits ()))⟩, tr')) ∧
    parse_llm_response (pystr "I do not know") = ⟨pyStrip (pystr "I do not know"), []⟩ := by
  constructor
  · exact fallback_replaces_links_only.1 Unit collabNoHeader (pystr "q") none () [Stage.embed]
      rfl (by decide) (by decide)
  · exact fallback_replaces_links_only.2 (pystr "I do not know")
      (by decide) (by decide) (by decide) (by decide) (by decide)

/-! ## Claim C3 — the aggregation bounds, ordering and stability -/

theorem mem_firstOccurAux {α : Type} [DecidableEq α] :
    ∀ (l seen : List α) (x : α), x ∈ firstOccurAux seen l → x ∈ l ∧ x ∉ seen := by
  intro l
  induction l with
  | nil => intro seen x h; simp [firstOccurAux] at h
  | cons y ys ih =>
    intro seen x h
    unfold firstOccurAux at h
    split at h
    · obtain ⟨h1, h2⟩ := ih _ _ h
      exact ⟨List.mem_cons_of_mem y h1, h2⟩
    · rcases List.mem_cons.mp h with rfl | h'
      · exact ⟨List.mem_cons_self x ys, by assumption⟩
      · obtain ⟨h1, h2⟩ := ih _ _ h'
        refine ⟨List.mem_cons_of_mem y h1, fun hc => h2 (List.mem_cons_of_mem y hc)⟩

theorem firstOccurAux_nodup {α : Type} [DecidableEq α] :
    ∀ (l seen : List α), (firstOccurAux seen l).Nodup := by
  intro l
  induction l with
  | nil => intro seen; exact List.nodup_nil
  | cons y ys ih =>
    intro seen
    unfold firstOccurAux
    split
    · exact ih seen
    · refine List.nodup_cons.mpr ⟨fun hc => ?_, ih (y :: seen)⟩
      exact (mem_firstOccurAux _ _ _ hc).2 (List.mem_cons_self y seen)

theorem firstOccur_nodup {α : Type} [DecidableEq α] (l : List α) : (firstOccur l).Nodup :=
  firstOccurAux_nodup l []

/-- Every chunk in a group's contribution has that group's key. -/
theorem groupKey_of_mem_grpContrib {l : List Chunk} {k : Str} {x : Chunk}
    (h : x ∈ grpContrib l k) : groupKey x = k := by
  unfold grpContrib at h
  have h1 := (List.take_sublist 3 _).subset h
  have h2 := (List.perm_insertionSort scoreGE _).subset h1
  have h3 := List.of_mem_filter h2
  exact beq_iff_eq.mp h3

/-- A stable sort does not move the elements of one score class: for a
predicate implying a fixed score, filtering commutes with the
descending sort. -/
theorem filter_const_score_sort (l : List Chunk) (P : Chunk → Bool) (s : ℚ)
    (hP : ∀ c, P c = true → scoreD c = s) :
    (sortByScoreDesc l).filter P = l.filter P := by
  have hpw : (l.filter P).Pairwise scoreGE := by
    apply List.pairwise_of_forall_mem_list
    intro a ha b hb
    have ha' := hP a (List.of_mem_filter ha)
    have hb' := hP b (List.of_mem_filter hb)
    unfold scoreGE
    rw [ha', hb']
  have hsub : (l.filter P).Sublist (sortByScoreDesc l) :=
    List.sublist_insertionSort hpw (List.filter_sublist l)
  have hself : (l.filter P).filter P = l.filter P :=
    List.filter_eq_self.mpr fun a ha => List.of_mem_filter ha
  have hsub2 : (l.filter P).Sublist ((sortByScoreDesc l).filter P) :=
    hself ▸ hsub.filter P
  have hperm : ((sortByScoreDesc l).filter P).Perm (l.filter P) :=
    (List.perm_insertionSort scoreGE l).filter P
  exact (hsub2.eq_of_length hperm.length_eq.symm).symm

/-- With at most one occurrence of `k` among the keys, the chunks of the
score-and-key class of `(k, s)` appearing in the flattened group
contributions form a subsequence of that class in the input. -/
theorem filter_flatten_contrib (l : List Chunk) (P : Chunk → Bool) (k : Str) (s : ℚ)
    (hPs : ∀ c, P c = true → scoreD c = s) (hPk : ∀ c, P c = true → groupKey c = k) :
    ∀ keys : List Str, keys.Nodup →
      ((keys.map (grpContrib l)).flatten.filter P).Sublist (l.filter P) := by
  intro keys
  induction keys with
  | nil => intro _; exact List.nil_sublist _
  | cons k' ks ih =>
    intro hnd
    obtain ⟨hnot, hnd'⟩ := List.nodup_cons.mp hnd
    rw [List.map_cons, List.flatten_cons, List.filter_append]
    by_cases hk : k' = k
    · subst hk
      have hrest : (ks.map (grpContrib l)).flatten.filter P = [] := by
        rw [List.filter_eq_nil_iff]
        intro a ha hPa
        obtain ⟨t, ht, hat⟩ := List.mem_flatten.mp ha
        obtain ⟨k'', hk'', rfl⟩ := List.mem_map.mp ht
        have := groupKey_of_mem_grpContrib hat
        rw [hPk a hPa] at this
        exact hnot (this ▸ hk'')
      rw [hrest, List.append_nil]
      have h1 : ((grpContrib l k').filter P).Sublist
          ((sortByScoreDesc (l.filter (fun c => groupKey c == k'))).filter P) :=
        (List.take_sublist 3 _).filter P
      rw [filter_const_score_sort _ P s hPs] at h1
      have habs : (l.filter (fun c => groupKey c == k')).filter P = l.filter P := by
        rw [List.filter_filter]
        apply List.filter_congr
        intro c _
        cases hc : P c
        · simp
        · simp [beq_iff_eq.mpr (hPk c hc)]
      rwa [habs] at h1
    · have hfirst : (grpContrib l k').filter P = [] := by
        rw [List.filter_eq_nil_iff]
        intro a ha hPa
        exact hk ((groupKey_of_mem_grpContrib ha).symm.trans (hPk a hPa))
      rw [hfirst, List.nil_append]
      exact ih hnd'

/-- With at most one occurrence of `k` among the keys, at most 3 chunks
of group `k` appear in the flattened group contributions. -/
theorem countP_flatten_contrib (l : List Chunk) (k : Str) :
    ∀ keys : List Str, keys.Nodup →
      (keys.map (grpContrib l)).flatten.countP (fun c => groupKey c == k) ≤ 3 := by
  intro keys
  induction keys with
  | nil => intro _; simp
  | cons k' ks ih =>
    intro hnd
    obtain ⟨hnot, hnd'⟩ := List.nodup_cons.mp hnd
    rw [List.map_cons, List.flatten_cons, List.countP_append]
    by_cases hk : k' = k
    · subst hk
      have hrest : (ks.map (grpContrib l)).flatten.countP (fun c => groupKey c == k') = 0 := by
        rw [List.countP_eq_zero]
        intro a ha hPa
        obtain ⟨t, ht, hat⟩ := List.mem_flatten.mp ha
        obtain ⟨k'', hk'', rfl⟩ := List.mem_map.mp ht
        have := groupKey_of_mem_grpContrib hat
        rw [beq_iff_eq.mp hPa] at this
        exact hnot (this ▸ hk'')
      have hfirst : (grpContrib l k').countP (fun c => groupKey c == k') ≤ 3 :=
        le_trans (List.countP_le_length _) (by simp [grpContrib])
      omega
    · have hfirst : (grpContrib l k').countP (fun c => groupKey c == k) = 0 := by
        rw [List.countP_eq_zero]
        intro a ha hPa
        exact hk ((groupKey_of_mem_grpContrib ha).symm.trans (beq_iff_eq.mp hPa))
      rw [hfirst]
      simpa using ih hnd'

/-- **C3** (counterexample).  Aggregation is not stable across groups:
with input `[chA, chB, chC]` (where `chA`, `chC` share a group and
`chB`, `chC` both have score 5), the output is `[chC, chB, chA]`, so the
equal-score chunks `chB`, `chC` appear in the opposite of their input
order — the score-5 chunks of the output are not a subsequence of the
score-5 chunks of the input. -/
theorem aggregate_stability_cex :
    group_and_deduplicate_chunks [chA, chB, chC] = [chC, chB, chA] ∧
    scoreD chB = scoreD chC ∧ chB ≠ chC ∧
    ¬ ((group_and_deduplicate_chunks [chA, chB, chC]).filter
          (fun c => scoreD c == 5)).Sublist
        (([chA, chB, chC]).filter (fun c => scoreD c == 5)) := by
  refine ⟨by decide, by decide, by decide, by decide⟩

/-- **C3** (amended).  For every input, aggregation returns at most 10
chunks, with at most 3 chunks per group key, globally sorted in
descending order of the defaulted score (`score` missing counts as 0);
and chunks with equal score *within the same group* keep their relative
input order (each sort is stable), stated as: for every key `k` and
score `s`, the output's chunks of group `k` and defaulted score `s`
form a subsequence of the input's.  (Across different groups, equal
score does not preserve input order, as the counterexample shows.) -/
theorem aggregate_spec (l : List Chunk) :
    (group_and_deduplicate_chunks l).length ≤ 10 ∧
    (∀ k : Str, (group_and_deduplicate_chunks l).countP (fun c => groupKey c == k) ≤ 3) ∧
    (group_and_deduplicate_chunks l).Sorted scoreGE ∧
    (∀ (k : Str) (s : ℚ),
      ((group_and_deduplicate_chunks l).filter
          (fun c => groupKey c == k && scoreD c == s)).Sublist
        (l.filter (fun c => groupKey c == k && scoreD c == s))) := by
  have hnd : (firstOccur (l.map groupKey)).Nodup := firstOccur_nodup _
  refine ⟨?_, ?_, ?_, ?_⟩
  · exact List.length_take_le 10 _
  · intro k
    unfold group_and_deduplicate_chunks
    calc (List.take 10 (sortByScoreDesc _)).countP (fun c => groupKey c == k)
        ≤ (sortByScoreDesc ((firstOccur (l.map groupKey)).map (grpContrib l)).flatten).countP
            (fun c => groupKey c == k) :=
          (List.take_sublist 10 _).countP_le _
      _ = (((firstOccur (l.map groupKey)).map (grpContrib l)).flatten).countP
            (fun c => groupKey c == k) :=
          (List.perm_insertionSort scoreGE _).countP_eq _
      _ ≤ 3 := countP_flatten_contrib l k _ hnd
  · exact List.Pairwise.sublist (List.take_sublist 10 _)
      (List.sorted_insertionSort scoreGE _)
  · intro k s
    have hPs : ∀ c, (groupKey c == k && scoreD c == s) = true → scoreD c = s := by
      intro c hc
      exact beq_iff_eq.mp (Bool.and_elim_right hc)
    have hPk : ∀ c, (groupKey c == k && scoreD c == s) = true → groupKey c = k := by
      intro c hc
      exact beq_iff_eq.mp (Bool.and_elim_left hc)
    unfold group_and_deduplicate_chunks
    have h1 : ((List.take 10 (sortByScoreDesc
        ((firstOccur (l.map groupKey)).map (grpContrib l)).flatten)).filter
          (fun c => groupKey c == k && scoreD c == s)).Sublist
        ((sortByScoreDesc ((firstOccur (l.map groupKey)).map (grpContrib l)).flatten).filter
          (fun c => groupKey c == k && scoreD c == s)) :=
      (List.take_sublist 10 _).filter _
    rw [filter_const_score_sort _ _ s hPs] at h1
    exact h1.trans (filter_flatten_contrib l _ k s hPs hPk _ hnd)

/-- Witness for C3 (amended) at the concrete counterexample input: the
bounds, sortedness, and the same-group stability instance hold there. -/
theorem aggregate_spec_witness :
    (group_and_deduplicate_chunks [chA, chB, chC]).length ≤ 10 ∧
    (group_and_deduplicate_chunks [chA, chB, chC]).countP
        (fun c => groupKey c == groupKey chA) ≤ 3 ∧
    ((group_and_deduplicate_chunks [chA, chB, chC]).filter
        (fun c => groupKey c == groupKey chA && scoreD c == 5)).Sublist
      (([chA, chB, chC]).filter (fun c => groupKey c == groupKey chA && scoreD c == 5)) := by
  obtain ⟨h1, h2, _, h4⟩ := aggregate_spec [chA, chB, chC]
  exact ⟨h1, h2 (groupKey chA), h4 (groupKey chA) 5⟩

/-! ## Claim C2 — round-trip of the mandated output format -/

/-- **C2** (counterexample).  The round-trip fails when the answer text
itself contains `Sources:`: with `a = "See Sources: note"` (which is
trimmed), `u = "http://e.com"` and `t = "desc"` (which satisfy all the
claimed constraints), the parser splits at the *first* occurrence of
`Sources:` and returns answer `"See"`, not `a`. -/
theorem parse_roundtrip_cex :
    pyStrip (pystr "See Sources: note") = pystr "See Sources: note" ∧
    (pystr "http").isPrefixOf (pystr "http://e.com") = true ∧
    (∀ c ∈ pystr "http://e.com", c ≠ ']' ∧ c ≠ '\n') ∧
    (∀ c ∈ pystr "desc", c ≠ ']' ∧ c ≠ '\n') ∧
    pystr "desc" ≠ [] ∧ pyStrip (pystr "desc") = pystr "desc" ∧
    parse_llm_response
        (mandatedFormat (pystr "See Sources: note") (pystr "http://e.com") (pystr "desc"))
      = ⟨pystr "See", [⟨pystr "http://e.com", pystr "desc"⟩]⟩ ∧
    pystr "See" ≠ pystr "See Sources: note" := by
  refine ⟨by decide, by decide, by decide, by decide, by decide, by decide, by decide, by decide⟩

theorem rstrip_length_le (s : Str) : (rstrip s).length ≤ s.length := by
  unfold rstrip
  calc (s.reverse.dropWhile pyIsSpace).reverse.length
      = (s.reverse.dropWhile pyIsSpace).length := List.length_reverse _
    _ ≤ s.reverse.length := (List.dropWhile_suffix pyIsSpace).length_le
    _ = s.length := List.length_reverse s

theorem lstrip_length_le (s : Str) : (lstrip s).length ≤ s.length :=
  (List.dropWhile_suffix pyIsSpace).length_le

/-- A trimmed string has no leading whitespace. -/
theorem lstrip_of_trimmed {s : Str} (h : pyStrip s = s) : lstrip s = s := by
  have h1 : (pyStrip s).length ≤ (lstrip s).length := rstrip_length_le _
  have h2 : (lstrip s).length ≤ s.length := lstrip_length_le s
  have h3 : (lstrip s).length = s.length := by rw [h] at h1; omega
  exact (List.dropWhile_suffix pyIsSpace).eq_of_length h3

/-- A trimmed string has no trailing whitespace. -/
theorem rstrip_of_trimmed {s : Str} (h : pyStrip s = s) : rstrip s = s := by
  have hl := lstrip_of_trimmed h
  unfold pyStrip at h
  rwa [hl] at h

/-- Appending only-whitespace does not change the right strip. -/
theorem rstrip_append_ws (s w : Str) (hw : ∀ c ∈ w, pyIsSpace c = true) :
    rstrip (s ++ w) = rstrip s := by
  unfold rstrip
  rw [List.reverse_append, List.dropWhile_append]
  have hnil : w.reverse.dropWhile pyIsSpace = [] :=
    List.dropWhile_eq_nil_iff.mpr fun x hx => hw x (List.mem_reverse.mp hx)
  rw [hnil]
  rfl

/-- Stripping a trimmed string extended by whitespace recovers it. -/
theorem pyStrip_append_ws (a w : Str) (ha : pyStrip a = a)
    (hw : ∀ c ∈ w, pyIsSpace c = true) : pyStrip (a ++ w) = a := by
  cases a with
  | nil =>
    simp only [List.nil_append]
    unfold pyStrip lstrip
    rw [List.dropWhile_eq_nil_iff.mpr hw]
    rfl
  | cons c a' =>
    have hl := lstrip_of_trimmed ha
    have hc : pyIsSpace c = false := by
      cases hx : pyIsSpace c
      · rfl
      · exfalso
        unfold lstrip at hl
        rw [List.dropWhile_cons, if_pos hx] at hl
        have hlen := (List.dropWhile_suffix (l := a') pyIsSpace).length_le
        rw [hl] at hlen
        simp at hlen
    unfold pyStrip
    have h1 : lstrip (c :: a' ++ w) = c :: a' ++ w := by
      unfold lstrip
      rw [List.cons_append, List.dropWhile_cons, if_neg (by simp [hc])]
    rw [h1, rstrip_append_ws _ _ hw, rstrip_of_trimmed ha]

/-- A string whose last character is not whitespace right-strips to
itself. -/
theorem rstrip_last {s y : Str} {c : Char} (h : s = y ++ [c]) (hc : pyIsSpace c = false) :
    rstrip s = s := by
  subst h
  unfold rstrip
  rw [List.reverse_append]
  simp only [List.reverse_cons, List.reverse_nil, List.nil_append, List.singleton_append]
  rw [List.dropWhile_cons, if_neg (by simp [hc])]
  simp

/-- A string with non-whitespace first and last characters strips to
itself. -/
theorem pyStrip_eq_self {c : Char} {m : Str} {d : Char}
    (hc : pyIsSpace c = false) (hd : pyIsSpace d = false) :
    pyStrip (c :: (m ++ [d])) = c :: (m ++ [d]) := by
  unfold pyStrip
  have h1 : lstrip (c :: (m ++ [d])) = c :: (m ++ [d]) := by
    unfold lstrip
    rw [List.dropWhile_cons, if_neg (by simp [hc])]
  rw [h1]
  exact rstrip_last (y := c :: m) (by simp) hd

/-! ### `splitFirst` facts -/

theorem isPrefixOf_append_self (p r : Str) : p.isPrefixOf (p ++ r) = true :=
  List.isPrefixOf_iff_prefix.mpr (List.prefix_append p r)

/-- Locating the separator when it leads the string. -/
theorem splitFirst_at_self (sep tail : Str) (hne : sep ≠ []) :
    splitFirst sep (sep ++ tail) = some ([], tail) := by
  cases sep with
  | nil => exact absurd rfl hne
  | cons c s' =>
    show splitFirst (c :: s') (c :: (s' ++ tail)) = some ([], tail)
    unfold splitFirst
    rw [if_pos (by exact_mod_cast isPrefixOf_append_self (c :: s') tail)]
    have : (c :: (s' ++ tail)).drop (c :: s').length = tail := List.drop_left (c :: s') tail
    rw [this]

/-- Skipping a position where the separator does not match. -/
theorem splitFirst_cons_skip (sep : Str) (c : Char) (s : Str)
    (h : sep.isPrefixOf (c :: s) = false) :
    splitFirst sep (c :: s) = (splitFirst sep s).map (fun p => (c :: p.1, p.2)) := by
  conv_lhs => rw [splitFirst]
  rw [if_neg (by simp [h])]

/-- When no occurrence of the separator starts inside `a` (also not one
running over into `z`), splitting `a ++ z` splits `z` and prepends
`a`. -/
theorem splitFirst_append_left (sep a z : Str)
    (H : ∀ a₁, a₁ <:+ a → a₁ ≠ [] → sep.isPrefixOf (a₁ ++ z) = false) :
    splitFirst sep (a ++ z) = (splitFirst sep z).map (fun p => (a ++ p.1, p.2)) := by
  induction a with
  | nil =>
    cases hz : splitFirst sep z <;> simp [hz]
  | cons c a' ih =>
    have hcons : sep.isPrefixOf (c :: (a' ++ z)) = false :=
      H (c :: a') List.suffix_rfl (by simp)
    rw [List.cons_append, splitFirst_cons_skip sep c (a' ++ z) hcons,
      ih (fun a₁ hs hne => H a₁ (hs.trans (List.suffix_cons c a')) hne)]
    cases hz : splitFirst sep z <;> simp [hz]

/-- `containsSub` characterised by a suffix with the pattern as a
prefix. -/
theorem containsSub_iff (sep s : Str) :
    containsSub sep s = true ↔ ∃ s₁, s₁ <:+ s ∧ sep <+: s₁ := by
  induction s with
  | nil =>
    unfold containsSub
    constructor
    · intro h
      exact ⟨[], List.suffix_rfl, List.isPrefixOf_iff_prefix.mp h⟩
    · rintro ⟨s₁, hs₁, hp⟩
      rw [List.suffix_nil.mp hs₁] at hp
      exact List.isPrefixOf_iff_prefix.mpr hp
  | cons c s ih =>
    unfold containsSub
    rw [Bool.or_eq_true]
    constructor
    · rintro (h | h)
      · exact ⟨c :: s, List.suffix_rfl, List.isPrefixOf_iff_prefix.mp h⟩
      · obtain ⟨s₁, hs₁, hp⟩ := ih.mp h
        exact ⟨s₁, hs₁.trans (List.suffix_cons c s), hp⟩
    · rintro ⟨s₁, hs₁, hp⟩
      rcases List.suffix_cons_iff.mp hs₁ with rfl | hs₁'
      · exact Or.inl (List.isPrefixOf_iff_prefix.mpr hp)
      · exact Or.inr (ih.mpr ⟨s₁, hs₁', hp⟩)

/-- Inside a string free of the separator, no occurrence can start in
the string — not even one running over into a continuation that opens
with a newline, when the separator contains none. -/
theorem no_cross_occurrence (sep a z' : Str)
    (hnl : '\n' ∉ sep) (hna : containsSub sep a = false) :
    ∀ a₁, a₁ <:+ a → a₁ ≠ [] → sep.isPrefixOf (a₁ ++ '\n' :: z') = false := by
  intro a₁ hs hne
  cases hp : sep.isPrefixOf (a₁ ++ '\n' :: z')
  · rfl
  · exfalso
    obtain ⟨r, hr⟩ := List.isPrefixOf_iff_prefix.mp hp
    by_cases hlen : sep.length ≤ a₁.length
    · have htake : sep = a₁.take sep.length := by
        have h1 : (sep ++ r).take sep.length = sep := List.take_left sep r
        have h2 : (a₁ ++ '\n' :: z').take sep.length = a₁.take sep.length :=
          List.take_append_of_le_length hlen
        rw [hr] at h1
        rw [h2] at h1
        exact h1.symm
      have hpre : sep <+: a₁ := htake ▸ List.take_prefix sep.length a₁
      have : containsSub sep a = true := (containsSub_iff sep a).mpr ⟨a₁, hs, hpre⟩
      rw [hna] at this
      exact Bool.false_ne_true this
    · push_neg at hlen
      have htake : a₁ = sep.take a₁.length := by
        have h1 : (a₁ ++ '\n' :: z').take a₁.length = a₁ := List.take_left a₁ _
        have h2 : (sep ++ r).take a₁.length = sep.take a₁.length :=
          List.take_append_of_le_length (le_of_lt hlen)
        rw [hr] at h2
        rw [h1] at h2
        exact h2
      have hpre : a₁ <+: sep := by
        rw [htake]
        exact List.take_prefix a₁.length sep
      obtain ⟨w, hw⟩ := hpre
      have hwne : w ≠ [] := by
        intro hwnil
        rw [hwnil, List.append_nil] at hw
        rw [hw] at hlen
        exact lt_irrefl _ hlen
      have hz : w ++ r = '\n' :: z' := by
        have hcat : a₁ ++ (w ++ r) = a₁ ++ '\n' :: z' := by
          rw [← List.append_assoc, hw, hr]
        exact List.append_cancel_left hcat
      cases w with
      | nil => exact hwne rfl
      | cons wh w' =>
        rw [List.cons_append] at hz
        injection hz with h1 _
        apply hnl
        rw [← hw]
        refine List.mem_append.mpr (Or.inr ?_)
        rw [h1]
        exact List.mem_cons_self _ _

/-! ### Line splitting, lazy captures, and search-position skipping -/

/-- A newline-free string is a single line. -/
theorem splitChar_eq_singleton {s : Str} (h : ∀ c ∈ s, c ≠ '\n') :
    splitChar '\n' s = [s] := by
  induction s with
  | nil => rfl
  | cons c s ih =>
    unfold splitChar
    rw [if_neg (by simp [h c (List.mem_cons_self c s)])]
    rw [ih (fun d hd => h d (List.mem_cons_of_mem c hd))]

/-- The lazy capture grabs exactly the closer-free, newline-free text
before the first closer. -/
theorem lazyCaptureTo_exact {closer : Char} {u rest : Str}
    (hu : ∀ c ∈ u, c ≠ closer ∧ c ≠ '\n') :
    lazyCaptureTo closer (u ++ closer :: rest) = some u := by
  induction u with
  | nil =>
    unfold lazyCaptureTo
    simp
  | cons c u' ih =>
    obtain ⟨h1, h2⟩ := hu c (List.mem_cons_self c u')
    unfold lazyCaptureTo
    rw [List.cons_append]
    simp only [beq_iff_eq]
    rw [if_neg h1, if_neg h2, ih (fun d hd => hu d (List.mem_cons_of_mem c hd))]
    rfl

/-- When no alternative matches at any position inside `x`, the search
over `x ++ y` is the search over `y`. -/
theorem reSearch_append (alts : Str → Option Str) (x y : Str)
    (H : ∀ x₁, x₁ <:+ x → x₁ ≠ [] → alts (x₁ ++ y) = none) :
    reSearch alts (x ++ y) = reSearch alts y := by
  induction x with
  | nil => rfl
  | cons c x' ih =>
    have hnone : alts (c :: (x' ++ y)) = none := by
      rw [← List.cons_append]
      exact H (c :: x') List.suffix_rfl (by simp)
    rw [List.cons_append, reSearch, hnone]
    exact ih (fun x₁ hs hne => H x₁ (hs.trans (List.suffix_cons c x')) hne)

/-! ### Case-insensitive prefix facts -/

/-- A case-insensitive prefix that fits inside the left part of an
append is a case-insensitive prefix of it. -/
theorem ciIsPrefixOf_left : ∀ (p a b : Str), ciIsPrefixOf p (a ++ b) = true →
    p.length ≤ a.length → ciIsPrefixOf p a = true := by
  intro p
  induction p with
  | nil => intro a b _ _; rfl
  | cons q ps ih =>
    intro a b h hlen
    cases a with
    | nil => simp at hlen
    | cons c a' =>
      rw [List.cons_append] at h
      have h' : (q.toLower == c.toLower && ciIsPrefixOf ps (a' ++ b)) = true := h
      show (q.toLower == c.toLower && ciIsPrefixOf ps a') = true
      cases hqc : (q.toLower == c.toLower)
      · rw [hqc] at h'
        simp at h'
      · rw [hqc] at h'
        simp only [Bool.true_and] at h'
        simp only [Bool.true_and]
        exact ih a' b h' (by simpa using hlen)

/-- A case-insensitive pattern free of `]` cannot match across a `]`
that arrives before the pattern ends. -/
theorem ciIsPrefixOf_stop_rbracket (p : Str) (hp : ∀ c ∈ p, c.toLower ≠ ']') :
    ∀ (u₁ z : Str), u₁.length < p.length →
      ciIsPrefixOf p (u₁ ++ ']' :: z) = false := by
  induction p with
  | nil => intro u₁ z h; simp at h
  | cons q ps ih =>
    intro u₁ z hlen
    cases u₁ with
    | nil =>
      have hq : q.toLower ≠ ']' := hp q (List.mem_cons_self q ps)
      have hbq : (q.toLower == ']'.toLower) = false := by
        simp only [beq_eq_false_iff_ne]
        intro hc
        exact hq (by simpa using hc)
      show (q.toLower == ']'.toLower && ciIsPrefixOf ps z) = false
      rw [hbq]
      rfl
    | cons c u₁' =>
      rw [List.cons_append]
      show (q.toLower == c.toLower && ciIsPrefixOf ps (u₁' ++ ']' :: z)) = false
      cases hqc : (q.toLower == c.toLower)
      · rfl
      · rw [ih (fun d hd => hp d (List.mem_cons_of_mem q hd)) u₁' z (by simpa using hlen)]
        rfl

/-- A case-insensitive occurrence inside a suffix is an occurrence. -/
theorem containsSubCI_of_suffix {p u u₁ : Str} (hs : u₁ <:+ u)
    (hp : ciIsPrefixOf p u₁ = true) : containsSubCI p u = true := by
  induction u with
  | nil =>
    rw [List.suffix_nil.mp hs] at hp
    unfold containsSubCI
    exact hp
  | cons c u' ih =>
    unfold containsSubCI
    rw [Bool.or_eq_true]
    rcases List.suffix_cons_iff.mp hs with rfl | hs'
    · exact Or.inl hp
    · exact Or.inr (ih hs')

/-! ### Suffix decomposition and head membership -/

theorem suffix_append_cases {x₁ : Str} : ∀ {p q : Str}, x₁ <:+ p ++ q →
    x₁ <:+ q ∨ ∃ p₁, p₁ <:+ p ∧ p₁ ≠ [] ∧ x₁ = p₁ ++ q := by
  intro p
  induction p with
  | nil => intro q h; exact Or.inl h
  | cons c p' ih =>
    intro q h
    rw [List.cons_append] at h
    rcases List.suffix_cons_iff.mp h with rfl | h'
    · exact Or.inr ⟨c :: p', List.suffix_rfl, by simp, by rw [List.cons_append]⟩
    · rcases ih h' with h'' | ⟨p₁, hp₁, hne, rfl⟩
      · exact Or.inl h''
      · exact Or.inr ⟨p₁, hp₁.trans (List.suffix_cons c p'), hne, rfl⟩

theorem head_mem_of_suffix {x₁ g : Str} {c : Char} {t : Str}
    (h : x₁ <:+ g) (he : x₁ = c :: t) : c ∈ g := by
  obtain ⟨d, hd⟩ := h
  rw [← hd, he]
  exact List.mem_append.mpr (Or.inr (List.mem_cons_self c t))

/-! ### The description alternation fails throughout the URL region -/

/-- A position whose head is neither a case-insensitive `t` nor a double
quote matches no description alternative. -/
theorem textAltsAt_none_head {c : Char} {rest : Str}
    (ht : c.toLower ≠ 't') (hq : c ≠ '"') : textAltsAt (c :: rest) = none := by
  have hci : ciIsPrefixOf (pystr "text:") (c :: rest) = false := by
    show ciIsPrefixOf ('t' :: pystr "ext:") (c :: rest) = false
    unfold ciIsPrefixOf
    have : ('t'.toLower == c.toLower) = false := by
      simp only [beq_eq_false_iff_ne]
      intro hc
      exact ht (by rw [← hc]; rfl)
    rw [this]
    rfl
  unfold textAltsAt matchTextBracket matchQuoted matchTextQuoted
  rw [hci]
  simp [hq]

/-- A position where the case-insensitive `text:` test fails and whose
head is not a double quote matches no description alternative. -/
theorem textAltsAt_none_of {c : Char} {rest : Str}
    (hci : ciIsPrefixOf (pystr "text:") (c :: rest) = false) (hq : c ≠ '"') :
    textAltsAt (c :: rest) = none := by
  unfold textAltsAt matchTextBracket matchQuoted matchTextQuoted
  rw [hci]
  simp [hq]

/-- No description alternative matches at any position of the region
`URL: [u], ` when `u` is quote-free and has no case-insensitive `text:`
occurrence. -/
theorem textAlts_region_none (u y : Str)
    (hu_q : ∀ c ∈ u, c ≠ '"')
    (hu_notext : containsSubCI (pystr "text:") u = false) :
    ∀ x₁, x₁ <:+ (pystr "URL: [" ++ u) ++ pystr "], " → x₁ ≠ [] →
      textAltsAt (x₁ ++ y) = none := by
  intro x₁ hs hne
  rcases suffix_append_cases hs with h2 | ⟨p₁, hp₁, hpne, rfl⟩
  · cases x₁ with
    | nil => exact absurd rfl hne
    | cons c t' =>
      have hc : c ∈ pystr "], " := head_mem_of_suffix h2 rfl
      have hfacts : ∀ d ∈ pystr "], ", d.toLower ≠ 't' ∧ d ≠ '"' := by decide
      rw [List.cons_append]
      exact textAltsAt_none_head (hfacts c hc).1 (hfacts c hc).2
  · rcases suffix_append_cases hp₁ with h2 | ⟨g₁', hg₁, hgne, rfl⟩
    · cases p₁ with
      | nil => exact absurd rfl hpne
      | cons c t' =>
        have hcu : c ∈ u := head_mem_of_suffix h2 rfl
        have hq : c ≠ '"' := hu_q c hcu
        by_cases hlen : (pystr "text:").length ≤ (c :: t').length
        · cases hci : ciIsPrefixOf (pystr "text:") ((c :: t') ++ (pystr "], " ++ y)) with
          | true =>
            exfalso
            have hpre : ciIsPrefixOf (pystr "text:") (c :: t') = true :=
              ciIsPrefixOf_left _ _ _ hci hlen
            have := containsSubCI_of_suffix h2 hpre
            rw [hu_notext] at this
            exact Bool.false_ne_true this
          | false =>
            have hci' :
                ciIsPrefixOf (pystr "text:") (c :: (t' ++ (pystr "], " ++ y))) = false := by
              rw [← List.cons_append]
              exact hci
            have := textAltsAt_none_of hci' hq
            rw [List.append_assoc, List.cons_append]
            exact this
        · push_neg at hlen
          have hci := ciIsPrefixOf_stop_rbracket (pystr "text:") (by decide)
            (c :: t') (pystr ", " ++ y) hlen
          have hsh : (c :: t') ++ ']' :: (pystr ", " ++ y)
              = c :: (t' ++ (pystr "], " ++ y)) := by
            rw [List.cons_append]
            rfl
          rw [hsh] at hci
          have := textAltsAt_none_of hci hq
          rw [List.append_assoc, List.cons_append]
          exact this
    · cases g₁' with
      | nil => exact absurd rfl hgne
      | cons c t' =>
        have hc : c ∈ pystr "URL: [" := head_mem_of_suffix hg₁ rfl
        have hfacts : ∀ d ∈ pystr "URL: [", d.toLower ≠ 't' ∧ d ≠ '"' := by decide
        rw [List.append_assoc, List.append_assoc, List.cons_append]
        exact textAltsAt_none_head (hfacts c hc).1 (hfacts c hc).2

theorem reSearch_eq_of_head (alts : Str → Option Str) (c : Char) (s g : Str)
    (h : alts (c :: s) = some g) : reSearch alts (c :: s) = some g := by
  rw [reSearch, h]

theorem isPrefixOf_sources_newline (w : Str) :
    (pystr "Sources:").isPrefixOf ('\n' :: w) = false := rfl

/-- Processing the mandated source line `1. URL: [u], Text: [t]` yields
exactly the citation `⟨u, t⟩`. -/
theorem processLine_mandated (u t : Str)
    (hu_http : (pystr "http").isPrefixOf u = true)
    (hu_trim : pyStrip u = u)
    (hu_clean : ∀ c ∈ u, c ≠ ']' ∧ c ≠ '\n' ∧ c ≠ '"')
    (hu_notext : containsSubCI (pystr "text:") u = false)
    (ht_ne : t ≠ [])
    (ht_trim : pyStrip t = t)
    (ht_clean : ∀ c ∈ t, c ≠ ']' ∧ c ≠ '\n') :
    processLine []
        (pystr "1. URL: [" ++ (u ++ (pystr "], Text: [" ++ (t ++ pystr "]"))))
      = [⟨u, t⟩] := by
  have hu_cl2 : ∀ c ∈ u, c ≠ ']' ∧ c ≠ '\n' :=
    fun c hc => ⟨(hu_clean c hc).1, (hu_clean c hc).2.1⟩
  have hu_q : ∀ c ∈ u, c ≠ '"' := fun c hc => (hu_clean c hc).2.2
  have hu_ne : u ≠ [] := by
    intro h
    rw [h] at hu_http
    exact absurd hu_http (by decide)
  have hshape :
      pystr "1. URL: [" ++ (u ++ (pystr "], Text: [" ++ (t ++ pystr "]")))
        = '1' :: ((pystr ". URL: [" ++ (u ++ (pystr "], Text: [" ++ t))) ++ [']']) := by
    simp only [List.append_assoc]
    rfl
  have hL : pyStrip (pystr "1. URL: [" ++ (u ++ (pystr "], Text: [" ++ (t ++ pystr "]"))))
      = pystr "1. URL: [" ++ (u ++ (pystr "], Text: [" ++ (t ++ pystr "]"))) := by
    rw [hshape]
    exact pyStrip_eq_self (by decide) (by decide)
  have hCapU :
      lazyCaptureTo ']' (u ++ (']' :: (pystr ", Text: [" ++ (t ++ pystr "]")))) = some u :=
    lazyCaptureTo_exact hu_cl2
  have hUrlAlt :
      urlAltsAt (pystr "URL: [" ++ (u ++ (pystr "], Text: [" ++ (t ++ pystr "]"))))
        = some u := by
    have h1 : matchUrlBracket
        (pystr "URL: [" ++ (u ++ (pystr "], Text: [" ++ (t ++ pystr "]"))))
        = lazyCaptureTo ']' (u ++ (']' :: (pystr ", Text: [" ++ (t ++ pystr "]")))) := rfl
    unfold urlAltsAt
    rw [h1, hCapU]
    rfl
  have hUrlSearch :
      reSearch urlAltsAt (pystr "URL: [" ++ (u ++ (pystr "], Text: [" ++ (t ++ pystr "]"))))
        = some u :=
    reSearch_eq_of_head urlAltsAt 'U' _ u hUrlAlt
  have hXY : pystr "URL: [" ++ (u ++ (pystr "], Text: [" ++ (t ++ pystr "]")))
      = ((pystr "URL: [" ++ u) ++ pystr "], ") ++ (pystr "Text: [" ++ (t ++ pystr "]")) := by
    simp only [List.append_assoc]
    rfl
  have hTextY : textAltsAt (pystr "Text: [" ++ (t ++ pystr "]")) = some t := by
    have h2 : matchTextBracket (pystr "Text: [" ++ (t ++ pystr "]"))
        = lazyCaptureTo ']' (t ++ (']' :: [])) := rfl
    unfold textAltsAt
    rw [h2, lazyCaptureTo_exact ht_clean]
    rfl
  have hTextSearch :
      reSearch textAltsAt (pystr "URL: [" ++ (u ++ (pystr "], Text: [" ++ (t ++ pystr "]"))))
        = some t := by
    rw [hXY, reSearch_append _ _ _ (textAlts_region_none u _ hu_q hu_notext)]
    exact reSearch_eq_of_head textAltsAt 'T' _ t hTextY
  unfold processLine
  dsimp only
  rw [hL]
  rw [if_neg (by
    rw [show pystr "1. URL: [" ++ (u ++ (pystr "], Text: [" ++ (t ++ pystr "]")))
        = '1' :: ('.' :: (' ' :: (pystr "URL: [" ++ (u ++ (pystr "], Text: [" ++ (t ++ pystr "]"))))))
      from rfl]
    simp)]
  rw [show stripBullet (stripEnum
      (pystr "1. URL: [" ++ (u ++ (pystr "], Text: [" ++ (t ++ pystr "]")))))
      = pystr "URL: [" ++ (u ++ (pystr "], Text: [" ++ (t ++ pystr "]"))) from rfl]
  rw [hUrlSearch]
  dsimp only
  rw [hTextSearch]
  dsimp only
  rw [if_neg ht_ne, hu_trim, ht_trim, if_pos ⟨hu_ne, hu_http⟩]
  rfl

/-- **C2** (amended).  The round-trip of the mandated format holds once
`a` is additionally required not to contain the header `Sources:`, and
`u` — beyond starting with `http` and being free of `]` and newlines —
is trimmed, free of double quotes, and free of case-insensitive `text:`
occurrences: then parsing `a\n\nSources:\n1. URL: [u], Text: [t]`
yields exactly `{answer: a, links: [{url: u, text: t}]}` with `u` and
`t` preserved verbatim. -/
theorem parse_roundtrip_amended (a u t : Str)
    (ha_trim : pyStrip a = a)
    (ha_nosrc : containsSub (pystr "Sources:") a = false)
    (hu_http : (pystr "http").isPrefixOf u = true)
    (hu_trim : pyStrip u = u)
    (hu_clean : ∀ c ∈ u, c ≠ ']' ∧ c ≠ '\n' ∧ c ≠ '"')
    (hu_notext : containsSubCI (pystr "text:") u = false)
    (ht_ne : t ≠ [])
    (ht_trim : pyStrip t = t)
    (ht_clean : ∀ c ∈ t, c ≠ ']' ∧ c ≠ '\n') :
    parse_llm_response (mandatedFormat a u t) = ⟨a, [⟨u, t⟩]⟩ := by
  have hform : mandatedFormat a u t
      = a ++ ('\n' :: '\n' :: (pystr "Sources:" ++ ('\n' ::
          (pystr "1. URL: [" ++ (u ++ (pystr "], Text: [" ++ (t ++ pystr "]"))))))) := by
    unfold mandatedFormat
    simp only [List.append_assoc]
    rfl
  have hsplit2 : splitFirst (pystr "Sources:") (mandatedFormat a u t)
      = some (a ++ pystr "\n\n",
          '\n' :: (pystr "1. URL: [" ++ (u ++ (pystr "], Text: [" ++ (t ++ pystr "]"))))) := by
    rw [hform]
    rw [splitFirst_append_left _ _ _ (no_cross_occurrence _ _ _ (by decide) ha_nosrc)]
    rw [splitFirst_cons_skip _ _ _ (isPrefixOf_sources_newline _),
      splitFirst_cons_skip _ _ _ (isPrefixOf_sources_newline _)]
    rw [splitFirst_at_self _ _ (by decide)]
    rfl
  have hsplitHeader : splitHeader (mandatedFormat a u t)
      = [a ++ pystr "\n\n",
         '\n' :: (pystr "1. URL: [" ++ (u ++ (pystr "], Text: [" ++ (t ++ pystr "]"))))] := by
    unfold splitHeader
    rw [hsplit2]
  have hAnswer : pyStrip (a ++ pystr "\n\n") = a :=
    pyStrip_append_ws a _ ha_trim (by decide)
  have hshape :
      pystr "1. URL: [" ++ (u ++ (pystr "], Text: [" ++ (t ++ pystr "]")))
        = '1' :: ((pystr ". URL: [" ++ (u ++ (pystr "], Text: [" ++ t))) ++ [']']) := by
    simp only [List.append_assoc]
    rfl
  have hTail : pyStrip ('\n' ::
      (pystr "1. URL: [" ++ (u ++ (pystr "], Text: [" ++ (t ++ pystr "]")))))
      = pystr "1. URL: [" ++ (u ++ (pystr "], Text: [" ++ (t ++ pystr "]"))) := by
    unfold pyStrip
    have h1 : lstrip ('\n' ::
        (pystr "1. URL: [" ++ (u ++ (pystr "], Text: [" ++ (t ++ pystr "]")))))
        = pystr "1. URL: [" ++ (u ++ (pystr "], Text: [" ++ (t ++ pystr "]"))) := by
      unfold lstrip
      rw [List.dropWhile_cons, if_pos (by decide)]
      rw [show pystr "1. URL: [" ++ (u ++ (pystr "], Text: [" ++ (t ++ pystr "]")))
          = '1' :: ('.' :: (' ' :: (pystr "URL: [" ++ (u ++ (pystr "], Text: [" ++ (t ++ pystr "]"))))))
        from rfl]
      rw [List.dropWhile_cons, if_neg (by decide)]
    rw [h1]
    have h2 : pyStrip (pystr "1. URL: [" ++ (u ++ (pystr "], Text: [" ++ (t ++ pystr "]"))))
        = pystr "1. URL: [" ++ (u ++ (pystr "], Text: [" ++ (t ++ pystr "]"))) := by
      rw [hshape]
      exact pyStrip_eq_self (by decide) (by decide)
    exact rstrip_of_trimmed h2
  have hLines : splitChar '\n'
      (pystr "1. URL: [" ++ (u ++ (pystr "], Text: [" ++ (t ++ pystr "]"))))
      = [pystr "1. URL: [" ++ (u ++ (pystr "], Text: [" ++ (t ++ pystr "]")))] := by
    apply splitChar_eq_singleton
    intro c hc
    simp only [List.mem_append] at hc
    have hg1 : ∀ d ∈ pystr "1. URL: [", d ≠ '\n' := by decide
    have hg2 : ∀ d ∈ pystr "], Text: [", d ≠ '\n' := by decide
    have hg3 : ∀ d ∈ pystr "]", d ≠ '\n' := by decide
    rcases hc with h | h | h | h | h
    · exact hg1 c h
    · exact (hu_clean c h).2.1
    · exact hg2 c h
    · exact (ht_clean c h).2
    · exact hg3 c h
  have hProc := processLine_mandated u t hu_http hu_trim hu_clean hu_notext ht_ne ht_trim ht_clean
  simp only [parse_llm_response, parse_llm_responseE, hsplitHeader]
  rw [hAnswer, hTail, hLines]
  simp only [List.foldl]
  rw [hProc]

/-- Witness for C2 (amended): the round-trip at a concrete trimmed
answer, URL and description satisfying the amended constraints. -/
theorem parse_roundtrip_amended_witness :
    parse_llm_response
        (mandatedFormat (pystr "The deadline is Friday.")
          (pystr "https://discourse.example/t/155939") (pystr "see the second post"))
      = ⟨pystr "The deadline is Friday.",
         [⟨pystr "https://discourse.example/t/155939", pystr "see the second post"⟩]⟩ :=
  parse_roundtrip_amended (pystr "The deadline is Friday.")
    (pystr "https://discourse.example/t/155939") (pystr "see the second post")
    (by decide) (by decide) (by decide) (by decide) (by decide) (by decide)
    (by decide) (by decide) (by decide)

end VirtualTA
